import Mathlib

/-!
Shallow embedding of the SimpleVector container
(src/simple-vector/simple_vector.h and src/simple-vector/array_ptr.h).

A vector state is the allocated buffer (a list of element slots, one entry
per slot the owned ArrayPtr allocated), the logical size, and the recorded
capacity.  ArrayPtr(n) value-initialises its n slots, so a fresh buffer is
a replicate of the default element.  std::copy into a buffer at an offset,
std::fill over a subrange, and the backward shifts of Insert and Erase are
modelled as explicit list surgery.  size_t subtraction is modelled as Nat
arithmetic modulo 2 ^ 64 where it can wrap (PopBack).
-/

set_option maxHeartbeats 1000000

structure SimpleVector (α : Type) where
  items : List α
  size : Nat
  capacity : Nat
  deriving DecidableEq

/-- Writes the whole list src into dst starting at slot off, leaving the
slots before off and the slots after off + src.length unchanged: the model
of std::copy / std::move of a range into a buffer at an offset. -/
def copyAt {α : Type} (src dst : List α) (off : Nat) : List α :=
  dst.take off ++ src ++ dst.drop (off + src.length)

/-- Overwrites the slots of l in the index interval from i up to j with v:
the model of std::fill / the std::for_each default-assignment loops. -/
def setRange {α : Type} (l : List α) (i j : Nat) (v : α) : List α :=
  l.take i ++ List.replicate (j - i) v ++ l.drop j

/-- The buffer produced by ArrayPtr(n): n value-initialised slots. -/
def newBuffer (α : Type) [Inhabited α] (n : Nat) : List α :=
  List.replicate n default

namespace SimpleVector

variable {α : Type} [Inhabited α]

/-- The live range of the vector, the elements from begin() up to end(). -/
def toList (s : SimpleVector α) : List α :=
  s.items.take s.size

/-- Well-formedness of a vector state: the recorded capacity bounds the
size and equals the number of slots the owned buffer actually holds. -/
def WF (s : SimpleVector α) : Prop :=
  s.size ≤ s.capacity ∧ s.items.length = s.capacity

instance (s : SimpleVector α) : Decidable s.WF :=
  inferInstanceAs (Decidable (s.size ≤ s.capacity ∧ s.items.length = s.capacity))

/-- Constructor SimpleVector(size, value): allocates size slots,
sets size = capacity = size, and fills the whole live range with value. -/
def MkSizedFill (n : Nat) (v : α) : SimpleVector α :=
  ⟨List.replicate n v, n, n⟩

/-- Constructor SimpleVector(size): delegates to SimpleVector(size, Type()). -/
def MkSized (n : Nat) : SimpleVector α :=
  MkSizedFill n default

/-- The copy constructor: builds new_vector with other.GetSize() slots,
then assigns new_vector.capacity_ = other.capacity_ (without reallocating),
then copies the live range of other into new_vector.begin(). -/
def CopyCtor (other : SimpleVector α) : SimpleVector α :=
  let nv : SimpleVector α := MkSized other.size
  { nv with capacity := other.capacity, items := copyAt other.toList nv.items 0 }

/-- Member Resize(new_size), the three branches of the source. -/
def Resize (s : SimpleVector α) (new_size : Nat) : SimpleVector α :=
  if new_size < s.size then
    { s with size := new_size }
  else if new_size < s.capacity then
    { s with items := setRange s.items s.size new_size default, size := new_size }
  else
    let nb := copyAt (s.items.take s.size) (newBuffer α new_size) 0
    { items := setRange nb s.size new_size default, size := new_size,
      capacity := new_size }

/-- Member Clear(): implemented as Resize(0). -/
def Clear (s : SimpleVector α) : SimpleVector α :=
  s.Resize 0

/-- Member PopBack(): Resize(size_ - 1) with the subtraction in size_t,
hence modulo 2 ^ 64. -/
def PopBack (s : SimpleVector α) : SimpleVector α :=
  s.Resize ((s.size + (2 ^ 64 - 1)) % 2 ^ 64)

/-- Member Reserve(new_capacity): when capacity_ < new_capacity, builds
SimpleVector(new_capacity), overwrites its size_ with size_, copies the
live range over, and swaps; otherwise does nothing. -/
def Reserve (s : SimpleVector α) (new_capacity : Nat) : SimpleVector α :=
  if s.capacity < new_capacity then
    let nv : SimpleVector α := MkSized new_capacity
    { nv with size := s.size, items := copyAt s.toList nv.items 0 }
  else s

/-- Member PushBack(const Type&): Resize(size_ + 1) then writes item into
slot size_ - 1 of the resized vector. -/
def PushBackCopy (s : SimpleVector α) (item : α) : SimpleVector α :=
  let t := s.Resize (s.size + 1)
  { t with items := t.items.set (t.size - 1) item }

/-- Member PushBack(Type&&): appends in place when size_ != capacity_,
otherwise reallocates to capacity_ * 2 (1 from 0), moves the live range
over, and writes item into slot size_. -/
def PushBackMove (s : SimpleVector α) (item : α) : SimpleVector α :=
  if s.size ≠ s.capacity then
    { s with items := s.items.set s.size item, size := s.size + 1 }
  else
    let new_capacity := if s.capacity = 0 then 1 else s.capacity * 2
    let nb := copyAt s.toList (newBuffer α new_capacity) 0
    { items := nb.set s.size item, size := s.size + 1, capacity := new_capacity }

/-- Member Insert(ConstIterator, const Type&) at index p.  The overload
asserts position >= begin() and position < end(); an index that fails the
assertion yields none.  Otherwise: in place it shifts the live tail one
slot right by copy_backward and writes value at p; at full capacity it
reallocates to capacity_ * 2 (1 from 0), copies the two halves around the
new slot, and writes value at p.  Returns the new state and the index the
returned iterator points at. -/
def InsertCopy (s : SimpleVector α) (p : Nat) (value : α) :
    Option (SimpleVector α × Nat) :=
  if p < s.size then
    if s.size ≠ s.capacity then
      some ({ s with
                items := (copyAt ((s.items.drop p).take (s.size - p))
                            s.items (p + 1)).set p value,
                size := s.size + 1 }, p)
    else
      let new_capacity := if s.capacity = 0 then 1 else s.capacity * 2
      let nb := copyAt (s.items.take p) (newBuffer α new_capacity) 0
      let nb := nb.set p value
      let nb := copyAt ((s.items.take s.size).drop p) nb (p + 1)
      some (⟨nb, s.size + 1, new_capacity⟩, p)
  else none

/-- Member Insert(ConstIterator, Type&&) at index p: the same two branches
as the copy overload, moving instead of copying, but with no assertion. -/
def InsertMove (s : SimpleVector α) (p : Nat) (value : α) :
    SimpleVector α × Nat :=
  if s.size ≠ s.capacity then
    ({ s with
         items := (copyAt ((s.items.drop p).take (s.size - p))
                     s.items (p + 1)).set p value,
         size := s.size + 1 }, p)
  else
    let new_capacity := if s.capacity = 0 then 1 else s.capacity * 2
    let nb := copyAt (s.items.take p) (newBuffer α new_capacity) 0
    let nb := nb.set p value
    let nb := copyAt ((s.items.take s.size).drop p) nb (p + 1)
    (⟨nb, s.size + 1, new_capacity⟩, p)

/-- Member Erase(position) at index p: asserts the position is in the live
range, shifts the elements after p one slot left by std::move, and
decrements size; returns the new state and the returned iterator index. -/
def Erase (s : SimpleVector α) (p : Nat) : Option (SimpleVector α × Nat) :=
  if p < s.size then
    some ({ s with
              items := copyAt ((s.items.take s.size).drop (p + 1)) s.items p,
              size := s.size - 1 }, p)
  else none

/-- Member At(index): throws std::out_of_range unless index < size_, else
returns the element at the index; the thrown case is none. -/
def At (s : SimpleVector α) (i : Nat) : Option α :=
  if i < s.size then some (s.items.getD i default) else none

/-- std::lexicographical_compare over two ranges, as the source's
operator< applies it to the two live ranges. -/
def lexLt [LinearOrder α] : List α → List α → Bool
  | _, [] => false
  | [], _ :: _ => true
  | a :: as, b :: bs => if a < b then true else if b < a then false else lexLt as bs

/-- Free operator<: lexicographical_compare of the live ranges. -/
def opLt [LinearOrder α] (lhs rhs : SimpleVector α) : Bool :=
  lexLt lhs.toList rhs.toList

/-- Free operator==: neither lhs < rhs nor rhs < lhs. -/
def opEq [LinearOrder α] (lhs rhs : SimpleVector α) : Bool :=
  !(opLt lhs rhs) && !(opLt rhs lhs)

/-- Free operator!=. -/
def opNe [LinearOrder α] (lhs rhs : SimpleVector α) : Bool :=
  !(opEq lhs rhs)

/-- Free operator<=. -/
def opLe [LinearOrder α] (lhs rhs : SimpleVector α) : Bool :=
  opEq lhs rhs || opLt lhs rhs

/-- Free operator>. -/
def opGt [LinearOrder α] (lhs rhs : SimpleVector α) : Bool :=
  !(opLe lhs rhs)

/-- Free operator>=. -/
def opGe [LinearOrder α] (lhs rhs : SimpleVector α) : Bool :=
  !(opLt lhs rhs)

/-- Modelled from the spec (section 4.2, relational operators): strict
lexicographic order written the way the spec words it, element-wise
less-than with shorter-is-less when one list is a prefix of the other. -/
def specLexLt [LinearOrder α] : List α → List α → Bool
  | _, [] => false
  | [], _ :: _ => true
  | a :: as, b :: bs => if a < b then true else if a = b then specLexLt as bs else false

end SimpleVector

open SimpleVector

section Lemmas

variable {α : Type}

theorem toList_length_of_wf (s : SimpleVector α) (h : s.WF) :
    s.toList.length = s.size := by
  obtain ⟨h1, h2⟩ := h
  simp only [toList, List.length_take]
  omega

theorem Resize_grow [Inhabited α] (s : SimpleVector α) (m : Nat)
    (h : s.WF) (hm : s.capacity ≤ m) :
    s.Resize m = ⟨s.toList ++ List.replicate (m - s.size) default, m, m⟩ := by
  obtain ⟨h1, h2⟩ := h
  have hA : s.toList.length = s.size := toList_length_of_wf s ⟨h1, h2⟩
  simp only [Resize]
  rw [if_neg (by omega), if_neg (by omega)]
  have hnb : copyAt (s.items.take s.size) (newBuffer α m) 0
      = s.toList ++ List.replicate (m - s.size) default := by
    have hmin : min s.size s.items.length = s.size := by omega
    simp [copyAt, newBuffer, toList, List.length_take, hmin]
  show SimpleVector.mk
    (setRange (copyAt (s.items.take s.size) (newBuffer α m) 0) s.size m default) m m = _
  rw [hnb]
  simp only [SimpleVector.mk.injEq, and_true]
  rw [setRange, List.take_left' hA,
      List.drop_eq_nil_of_le (by simp [hA]; omega)]
  simp

theorem Resize_size_of_le (s : SimpleVector α) [Inhabited α] (m : Nat)
    (h : ¬ m < s.size) : (s.Resize m).size = m := by
  simp only [Resize]
  rw [if_neg h]
  split <;> rfl

end Lemmas

/-- Claim C1: the recorded capacity is supposed to equal the number of
slots the owned buffer allocated, after every constructor and operation.
The copy constructor breaks this: copying the reachable vector with live
element 5, size 1 and capacity 2 allocates only 1 slot (other.GetSize())
yet records capacity 2, so the result has fewer allocated slots than its
capacity and a later in-place PushBack would write past the allocation. -/
theorem claim_copy_ctor_capacity :
    (⟨[5, 0], 1, 2⟩ : SimpleVector Nat).WF
    ∧ SimpleVector.PushBackMove (SimpleVector.Reserve (⟨[], 0, 0⟩ : SimpleVector Nat) 2) 5
        = ⟨[5, 0], 1, 2⟩
    ∧ (SimpleVector.CopyCtor (⟨[5, 0], 1, 2⟩ : SimpleVector Nat)).capacity = 2
    ∧ (SimpleVector.CopyCtor (⟨[5, 0], 1, 2⟩ : SimpleVector Nat)).items.length = 1 := by
  decide

/-- Claim C5: checked access At i returns none (the out-of-range throw)
exactly when i is at least the size, and on an index below the size it
returns the live element at logical index i; the vector itself is a value
the access never modifies. -/
theorem claim_at_checked {α : Type} [Inhabited α] (s : SimpleVector α) (i : Nat)
    (h : s.WF) :
    (s.At i = none ↔ s.size ≤ i)
    ∧ ∀ hi : i < s.size, s.At i = some (s.toList.getD i default) := by
  obtain ⟨h1, h2⟩ := h
  refine ⟨?_, ?_⟩
  · by_cases hi : i < s.size <;> simp [At, hi] <;> omega
  · intro hi
    have hsame : s.toList.getD i default = s.items.getD i default := by
      simp only [toList, List.getD_eq_getElem?_getD]
      rw [List.getElem?_take_of_lt hi]
    rw [At, if_pos hi, hsame]

/-- Witness for claim C5 at the vector with live element 5 and index 0. -/
theorem claim_at_checked_wit :
    (⟨[5], 1, 1⟩ : SimpleVector Nat).WF
    ∧ (((⟨[5], 1, 1⟩ : SimpleVector Nat).At 0 = none
          ↔ (⟨[5], 1, 1⟩ : SimpleVector Nat).size ≤ 0)
        ∧ ∀ hi : 0 < (⟨[5], 1, 1⟩ : SimpleVector Nat).size,
            (⟨[5], 1, 1⟩ : SimpleVector Nat).At 0
              = some ((⟨[5], 1, 1⟩ : SimpleVector Nat).toList.getD 0 default)) :=
  ⟨by decide, claim_at_checked (⟨[5], 1, 1⟩ : SimpleVector Nat) 0 (by decide)⟩

/-- Claim C9: Clear, which the source implements as Resize(0), sets the
size to 0 and leaves both the capacity and the whole buffer contents
untouched, so the previously live slots keep their old values. -/
theorem claim_clear_frame {α : Type} [Inhabited α] (s : SimpleVector α) (h : s.WF) :
    s.Clear.size = 0 ∧ s.Clear.capacity = s.capacity ∧ s.Clear.items = s.items := by
  obtain ⟨h1, h2⟩ := h
  simp only [Clear, Resize]
  by_cases hs : 0 < s.size
  · rw [if_pos hs]
    exact ⟨rfl, rfl, rfl⟩
  · have hs0 : s.size = 0 := by omega
    rw [if_neg (by omega)]
    by_cases hc : 0 < s.capacity
    · rw [if_pos hc]
      refine ⟨rfl, rfl, ?_⟩
      simp [setRange, hs0]
    · rw [if_neg (by omega)]
      have hnil : s.items = [] := List.length_eq_zero.mp (by omega)
      refine ⟨rfl, ?_, ?_⟩
      · rw [show s.capacity = 0 from by omega]
      · show setRange (copyAt (s.items.take s.size) (newBuffer α 0) 0) s.size 0 default
          = s.items
        simp [setRange, copyAt, newBuffer, hnil, hs0]

/-- Witness for claim C9 at the vector with live range [1, 2]. -/
theorem claim_clear_frame_wit :
    (⟨[1, 2], 2, 2⟩ : SimpleVector Nat).WF
    ∧ ((⟨[1, 2], 2, 2⟩ : SimpleVector Nat).Clear.size = 0
        ∧ (⟨[1, 2], 2, 2⟩ : SimpleVector Nat).Clear.capacity
            = (⟨[1, 2], 2, 2⟩ : SimpleVector Nat).capacity
        ∧ (⟨[1, 2], 2, 2⟩ : SimpleVector Nat).Clear.items
            = (⟨[1, 2], 2, 2⟩ : SimpleVector Nat).items) :=
  ⟨by decide, claim_clear_frame (⟨[1, 2], 2, 2⟩ : SimpleVector Nat) (by decide)⟩

/-- Claim C10: PopBack has no assertion, and on an empty vector the size_t
argument size - 1 wraps around, so PopBack is exactly Resize at the wrapped
value 2 to the 64th minus 1, and the resulting size is that huge value
rather than a decrement. -/
theorem claim_popBack_empty {α : Type} [Inhabited α] (s : SimpleVector α)
    (h : s.size = 0) :
    s.PopBack = s.Resize (2 ^ 64 - 1) ∧ s.PopBack.size = 2 ^ 64 - 1 := by
  have harg : (s.size + (2 ^ 64 - 1)) % 2 ^ 64 = 2 ^ 64 - 1 := by
    rw [h]
    norm_num
  refine ⟨?_, ?_⟩
  · simp only [PopBack]
    rw [harg]
  · simp only [PopBack]
    rw [harg]
    exact Resize_size_of_le s _ (by omega)

/-- Witness for claim C10 at the default-constructed empty vector. -/
theorem claim_popBack_empty_wit :
    (⟨[], 0, 0⟩ : SimpleVector Nat).size = 0
    ∧ ((⟨[], 0, 0⟩ : SimpleVector Nat).PopBack
          = (⟨[], 0, 0⟩ : SimpleVector Nat).Resize (2 ^ 64 - 1)
        ∧ (⟨[], 0, 0⟩ : SimpleVector Nat).PopBack.size = 2 ^ 64 - 1) :=
  ⟨rfl, claim_popBack_empty (⟨[], 0, 0⟩ : SimpleVector Nat) rfl⟩

/-- Claim C2, counterexample: the vector with live range [1, 2] is
well-formed with size = capacity = 2 > 0, yet the copy overload of
PushBack grows the capacity only to 3, less than double the old capacity,
because it delegates to Resize(size + 1). -/
theorem claim_pushBack_double_cex :
    (⟨[1, 2], 2, 2⟩ : SimpleVector Nat).WF
    ∧ (⟨[1, 2], 2, 2⟩ : SimpleVector Nat).size = (⟨[1, 2], 2, 2⟩ : SimpleVector Nat).capacity
    ∧ 0 < (⟨[1, 2], 2, 2⟩ : SimpleVector Nat).capacity
    ∧ ¬ (2 * (⟨[1, 2], 2, 2⟩ : SimpleVector Nat).capacity
          ≤ (SimpleVector.PushBackCopy (⟨[1, 2], 2, 2⟩ : SimpleVector Nat) 7).capacity) := by
  decide

/-- Claim C2, amended: on a full vector (size = capacity > 0) the move
overload of PushBack doubles the capacity, while the copy overload grows
the capacity only to the old capacity plus one; both append the value and
keep every old live element unchanged and in order. -/
theorem claim_pushBack_at_capacity {α : Type} [Inhabited α] (s : SimpleVector α)
    (v : α) (h : s.WF) (hfull : s.size = s.capacity) (hpos : 0 < s.capacity) :
    (s.PushBackMove v).capacity = 2 * s.capacity
    ∧ (s.PushBackMove v).toList = s.toList ++ [v]
    ∧ (s.PushBackCopy v).capacity = s.capacity + 1
    ∧ (s.PushBackCopy v).toList = s.toList ++ [v] := by
  obtain ⟨h1, h2⟩ := h
  have hA : s.toList.length = s.size := toList_length_of_wf s ⟨h1, h2⟩
  have hmove : s.PushBackMove v
      = ⟨s.toList ++ v :: List.replicate (s.capacity - 1) default,
         s.size + 1, s.capacity * 2⟩ := by
    simp only [PushBackMove]
    rw [if_neg (by omega)]
    show SimpleVector.mk
      ((copyAt s.toList (newBuffer α (if s.capacity = 0 then 1 else s.capacity * 2)) 0).set
        s.size v) (s.size + 1) (if s.capacity = 0 then 1 else s.capacity * 2) = _
    rw [if_neg (by omega)]
    have hnb : copyAt s.toList (newBuffer α (s.capacity * 2)) 0
        = s.toList ++ List.replicate (s.capacity * 2 - s.size) default := by
      simp [copyAt, newBuffer, hA]
    rw [hnb]
    simp only [SimpleVector.mk.injEq, and_true]
    rw [List.set_append_right _ _ (by omega)]
    rw [hA, Nat.sub_self, show s.capacity * 2 - s.size = (s.capacity - 1) + 1 from by omega,
        List.replicate_succ, List.set_cons_zero]
  have hcopy : s.PushBackCopy v = ⟨s.toList ++ [v], s.size + 1, s.size + 1⟩ := by
    simp only [PushBackCopy]
    rw [Resize_grow s (s.size + 1) ⟨h1, h2⟩ (by omega)]
    simp only [SimpleVector.mk.injEq, and_true]
    rw [show s.size + 1 - s.size = 1 from by omega]
    show (s.toList ++ List.replicate 1 default).set (s.size + 1 - 1) v = s.toList ++ [v]
    rw [show s.size + 1 - 1 = s.size from by omega,
        List.set_append_right _ _ (by omega), hA, Nat.sub_self]
    rfl
  refine ⟨?_, ?_, ?_, ?_⟩
  · rw [hmove]
    show s.capacity * 2 = 2 * s.capacity
    omega
  · rw [hmove]
    show (s.toList ++ v :: List.replicate (s.capacity - 1) default).take (s.size + 1)
      = s.toList ++ [v]
    rw [show s.size + 1 = s.toList.length + 1 from by omega, List.take_append]
    rfl
  · rw [hcopy]
    show s.size + 1 = s.capacity + 1
    omega
  · rw [hcopy]
    show (s.toList ++ [v]).take (s.size + 1) = s.toList ++ [v]
    rw [List.take_of_length_le (by simp [hA])]

/-- Witness for the amended claim C2 at the full vector with live
range [1, 2] and appended value 7. -/
theorem claim_pushBack_at_capacity_wit :
    (⟨[1, 2], 2, 2⟩ : SimpleVector Nat).WF
    ∧ (⟨[1, 2], 2, 2⟩ : SimpleVector Nat).size = (⟨[1, 2], 2, 2⟩ : SimpleVector Nat).capacity
    ∧ 0 < (⟨[1, 2], 2, 2⟩ : SimpleVector Nat).capacity
    ∧ ((SimpleVector.PushBackMove (⟨[1, 2], 2, 2⟩ : SimpleVector Nat) 7).capacity
          = 2 * (⟨[1, 2], 2, 2⟩ : SimpleVector Nat).capacity
        ∧ (SimpleVector.PushBackMove (⟨[1, 2], 2, 2⟩ : SimpleVector Nat) 7).toList
          = (⟨[1, 2], 2, 2⟩ : SimpleVector Nat).toList ++ [7]
        ∧ (SimpleVector.PushBackCopy (⟨[1, 2], 2, 2⟩ : SimpleVector Nat) 7).capacity
          = (⟨[1, 2], 2, 2⟩ : SimpleVector Nat).capacity + 1
        ∧ (SimpleVector.PushBackCopy (⟨[1, 2], 2, 2⟩ : SimpleVector Nat) 7).toList
          = (⟨[1, 2], 2, 2⟩ : SimpleVector Nat).toList ++ [7]) :=
  ⟨by decide, by decide, by decide,
    claim_pushBack_at_capacity (⟨[1, 2], 2, 2⟩ : SimpleVector Nat) 7
      (by decide) (by decide) (by decide)⟩

/-- Claim C3, counterexample: resizing the well-formed vector with live
range [1, 2] (capacity 2) to new size 3 yields capacity 3, less than
max of the new size and double the old capacity. -/
theorem claim_resize_growth_cex :
    (⟨[1, 2], 2, 2⟩ : SimpleVector Nat).WF
    ∧ (⟨[1, 2], 2, 2⟩ : SimpleVector Nat).capacity < 3
    ∧ ¬ (max 3 (2 * (⟨[1, 2], 2, 2⟩ : SimpleVector Nat).capacity)
          ≤ ((⟨[1, 2], 2, 2⟩ : SimpleVector Nat).Resize 3).capacity) := by
  decide

/-- Claim C3, amended: resizing a well-formed vector past its capacity
sets the size to the new size, default-fills the newly revealed slots, and
grows the capacity to exactly the new size. -/
theorem claim_resize_beyond_capacity {α : Type} [Inhabited α] (s : SimpleVector α)
    (m : Nat) (h : s.WF) (hm : s.capacity < m) :
    (s.Resize m).size = m ∧ (s.Resize m).capacity = m
    ∧ (s.Resize m).toList = s.toList ++ List.replicate (m - s.size) default := by
  have hA : s.toList.length = s.size := toList_length_of_wf s h
  have hsz : s.size ≤ s.capacity := h.1
  rw [Resize_grow s m h (le_of_lt hm)]
  refine ⟨rfl, rfl, ?_⟩
  show (s.toList ++ List.replicate (m - s.size) default).take m
    = s.toList ++ List.replicate (m - s.size) default
  rw [List.take_of_length_le (by simp [hA]; omega)]

/-- Witness for the amended claim C3 at the vector with live range [1, 2]
resized to 3. -/
theorem claim_resize_beyond_capacity_wit :
    (⟨[1, 2], 2, 2⟩ : SimpleVector Nat).WF
    ∧ (⟨[1, 2], 2, 2⟩ : SimpleVector Nat).capacity < 3
    ∧ (((⟨[1, 2], 2, 2⟩ : SimpleVector Nat).Resize 3).size = 3
        ∧ ((⟨[1, 2], 2, 2⟩ : SimpleVector Nat).Resize 3).capacity = 3
        ∧ ((⟨[1, 2], 2, 2⟩ : SimpleVector Nat).Resize 3).toList
          = (⟨[1, 2], 2, 2⟩ : SimpleVector Nat).toList
              ++ List.replicate (3 - (⟨[1, 2], 2, 2⟩ : SimpleVector Nat).size) default) :=
  ⟨by decide, by decide,
    claim_resize_beyond_capacity (⟨[1, 2], 2, 2⟩ : SimpleVector Nat) 3
      (by decide) (by decide)⟩

/-- Claim C7: Reserve never decreases capacity, never changes the size,
and never changes any live element; below or at the current capacity it is
the identity, and above it the new capacity is exactly the requested
value. -/
theorem claim_reserve_frame {α : Type} [Inhabited α] (s : SimpleVector α)
    (n : Nat) (h : s.WF) :
    (s.Reserve n).size = s.size
    ∧ s.capacity ≤ (s.Reserve n).capacity
    ∧ (s.Reserve n).toList = s.toList
    ∧ (n ≤ s.capacity → s.Reserve n = s)
    ∧ (s.capacity < n → (s.Reserve n).capacity = n) := by
  have hA : s.toList.length = s.size := toList_length_of_wf s h
  by_cases hc : s.capacity < n
  · have hres : s.Reserve n
        = ⟨s.toList ++ List.replicate (n - s.size) default, s.size, n⟩ := by
      simp only [Reserve, MkSized, MkSizedFill]
      rw [if_pos hc]
      show SimpleVector.mk (copyAt s.toList (List.replicate n default) 0) s.size n = _
      simp [copyAt, hA]
    rw [hres]
    refine ⟨rfl, show s.capacity ≤ n from by omega, ?_,
      fun hle => absurd hc (by omega), fun _ => rfl⟩
    show (s.toList ++ List.replicate (n - s.size) default).take s.size = s.toList
    rw [List.take_left' hA]
  · have hid : s.Reserve n = s := by
      simp only [Reserve]
      rw [if_neg hc]
    rw [hid]
    exact ⟨rfl, le_refl _, rfl, fun _ => rfl, fun hlt => absurd hlt hc⟩

/-- Witness for claim C7 at the vector with live range [1, 2] and
requested capacity 4. -/
theorem claim_reserve_frame_wit :
    (⟨[1, 2], 2, 2⟩ : SimpleVector Nat).WF
    ∧ (((⟨[1, 2], 2, 2⟩ : SimpleVector Nat).Reserve 4).size
          = (⟨[1, 2], 2, 2⟩ : SimpleVector Nat).size
        ∧ (⟨[1, 2], 2, 2⟩ : SimpleVector Nat).capacity
            ≤ ((⟨[1, 2], 2, 2⟩ : SimpleVector Nat).Reserve 4).capacity
        ∧ ((⟨[1, 2], 2, 2⟩ : SimpleVector Nat).Reserve 4).toList
            = (⟨[1, 2], 2, 2⟩ : SimpleVector Nat).toList
        ∧ (4 ≤ (⟨[1, 2], 2, 2⟩ : SimpleVector Nat).capacity
            → (⟨[1, 2], 2, 2⟩ : SimpleVector Nat).Reserve 4
                = (⟨[1, 2], 2, 2⟩ : SimpleVector Nat))
        ∧ ((⟨[1, 2], 2, 2⟩ : SimpleVector Nat).capacity < 4
            → ((⟨[1, 2], 2, 2⟩ : SimpleVector Nat).Reserve 4).capacity = 4)) :=
  ⟨by decide, claim_reserve_frame (⟨[1, 2], 2, 2⟩ : SimpleVector Nat) 4 (by decide)⟩

theorem InsertCopy_spec {α : Type} [Inhabited α] (s : SimpleVector α) (p : Nat)
    (v : α) (h : s.WF) (hp : p < s.size) :
    ∃ t : SimpleVector α, s.InsertCopy p v = some (t, p)
      ∧ t.toList = s.toList.take p ++ v :: s.toList.drop p
      ∧ t.size = s.size + 1 ∧ t.WF := by
  obtain ⟨h1, h2⟩ := h
  have hLp : p < s.items.length := by omega
  have hRt : s.toList.take p = s.items.take p := by
    rw [toList, List.take_take, Nat.min_eq_left (by omega)]
  have hRd : s.toList.drop p = (s.items.drop p).take (s.size - p) := by
    rw [toList, List.drop_take]
  by_cases hfull : s.size = s.capacity
  · -- reallocating branch, capacity_ * 2
    have hc0 : ¬ (s.capacity = 0) := by omega
    have key : s.InsertCopy p v = some (⟨
        copyAt ((s.items.take s.size).drop p)
          ((copyAt (s.items.take p) (newBuffer α (s.capacity * 2)) 0).set p v) (p + 1),
        s.size + 1, s.capacity * 2⟩, p) := by
      simp only [InsertCopy, if_pos hp]
      rw [if_neg (show ¬ s.size ≠ s.capacity from fun hne => hne hfull)]
      simp only [if_neg hc0]
    have hP : (s.items.take p).length = p := by
      simp [List.length_take]
      omega
    have hX : (copyAt (s.items.take p) (newBuffer α (s.capacity * 2)) 0).set p v
        = s.items.take p ++ v :: List.replicate (s.capacity * 2 - p - 1) default := by
      rw [copyAt]
      simp only [List.take_zero, List.nil_append, Nat.zero_add, newBuffer,
        List.drop_replicate, hP]
      rw [List.set_append_right _ _ (by omega), hP, Nat.sub_self,
          show s.capacity * 2 - p = (s.capacity * 2 - p - 1) + 1 from by omega,
          List.replicate_succ, List.set_cons_zero]
      simp
    have hS : ((s.items.take s.size).drop p).length = s.size - p := by
      simp [List.length_take, List.length_drop]
      omega
    refine ⟨_, key, ?_, rfl, ?_⟩
    · show (copyAt ((s.items.take s.size).drop p)
          ((copyAt (s.items.take p) (newBuffer α (s.capacity * 2)) 0).set p v)
          (p + 1)).take (s.size + 1)
        = s.toList.take p ++ v :: s.toList.drop p
      rw [copyAt, hX]
      rw [List.take_append_of_le_length (by simp [List.length_take, hS]; omega)]
      rw [show (s.items.take p ++ v :: List.replicate (s.capacity * 2 - p - 1) default).take
            (p + 1) = s.items.take p ++ [v] from by
        rw [show p + 1 = (s.items.take p).length + 1 from by rw [hP], List.take_append]
        rfl]
      rw [List.take_of_length_le (by simp [List.length_take, hS]; omega)]
      rw [List.append_assoc, toList, List.take_take, Nat.min_eq_left (le_of_lt hp)]
      rfl
    · constructor
      · show s.size + 1 ≤ s.capacity * 2
        omega
      · show (copyAt ((s.items.take s.size).drop p)
            ((copyAt (s.items.take p) (newBuffer α (s.capacity * 2)) 0).set p v)
            (p + 1)).length = s.capacity * 2
        rw [copyAt, hX]
        simp [List.length_take, List.length_drop, hS]
        omega
  · -- in-place branch
    have hlt : s.size < s.capacity := by omega
    have key : s.InsertCopy p v = some ({ s with
        items := (copyAt ((s.items.drop p).take (s.size - p)) s.items (p + 1)).set p v,
        size := s.size + 1 }, p) := by
      simp only [InsertCopy, if_pos hp]
      rw [if_pos (show s.size ≠ s.capacity from hfull)]
    have hS : ((s.items.drop p).take (s.size - p)).length = s.size - p := by
      simp [List.length_take, List.length_drop]
      omega
    have hP1 : (s.items.take (p + 1)).length = p + 1 := by
      simp [List.length_take]
      omega
    have htp : s.items.take (p + 1) = s.items.take p ++ [s.items.get ⟨p, hLp⟩] := by
      rw [List.take_succ, List.getElem?_eq_getElem hLp]
      rfl
    refine ⟨_, key, ?_, rfl, ?_⟩
    · show ((copyAt ((s.items.drop p).take (s.size - p)) s.items (p + 1)).set p v).take
          (s.size + 1)
        = s.toList.take p ++ v :: s.toList.drop p
      rw [List.set_take, copyAt, hS]
      rw [List.take_append_of_le_length (by simp [List.length_take, hS]; omega)]
      rw [List.take_of_length_le (by simp [List.length_take, hS]; omega)]
      rw [List.set_append_left _ _ (by rw [hP1]; omega)]
      rw [htp, List.set_append_right _ _ (by simp [List.length_take])]
      rw [show p - (s.items.take p).length = 0 from by simp [List.length_take]; omega,
          List.set_cons_zero]
      rw [List.append_assoc, toList, List.take_take, Nat.min_eq_left (le_of_lt hp),
          List.drop_take]
      rfl
    · constructor
      · show s.size + 1 ≤ s.capacity
        omega
      · show ((copyAt ((s.items.drop p).take (s.size - p)) s.items (p + 1)).set p v).length
          = s.capacity
        rw [copyAt, hS]
        simp [List.length_take, List.length_drop]
        omega

theorem Erase_spec {α : Type} [Inhabited α] (t : SimpleVector α) (p : Nat)
    (h : t.WF) (hp : p < t.size) :
    ∃ u : SimpleVector α, t.Erase p = some (u, p)
      ∧ u.toList = t.toList.take p ++ t.toList.drop (p + 1)
      ∧ u.size = t.size - 1 := by
  obtain ⟨h1, h2⟩ := h
  have key : t.Erase p = some ({ t with
      items := copyAt ((t.items.take t.size).drop (p + 1)) t.items p,
      size := t.size - 1 }, p) := by
    simp only [Erase, if_pos hp]
  have hS : ((t.items.take t.size).drop (p + 1)).length = t.size - (p + 1) := by
    simp [List.length_take, List.length_drop]
    omega
  refine ⟨_, key, ?_, rfl⟩
  show (copyAt ((t.items.take t.size).drop (p + 1)) t.items p).take (t.size - 1)
    = t.toList.take p ++ t.toList.drop (p + 1)
  rw [copyAt, hS]
  rw [List.take_append_of_le_length (by simp [List.length_take, hS]; omega)]
  rw [List.take_of_length_le (by simp [List.length_take, hS]; omega)]
  rw [toList, List.take_take, Nat.min_eq_left (by omega)]

/-- Claim C6: inserting a value at a live position p with the copy overload
of Insert and then erasing at the returned position restores the original
sequence of live element values and the original size (the capacity may
have changed). -/
theorem claim_insert_erase_roundtrip {α : Type} [Inhabited α] (s : SimpleVector α)
    (p : Nat) (v : α) (h : s.WF) (hp : p < s.size) :
    ∃ t u : SimpleVector α, s.InsertCopy p v = some (t, p)
      ∧ t.Erase p = some (u, p) ∧ u.toList = s.toList ∧ u.size = s.size := by
  obtain ⟨t, hins, htl, hts, htwf⟩ := InsertCopy_spec s p v h hp
  obtain ⟨u, hera, hul, hus⟩ := Erase_spec t p htwf (by omega)
  have hA : s.toList.length = s.size := toList_length_of_wf s h
  have hlp : (s.toList.take p).length = p := by
    simp [List.length_take]
    omega
  refine ⟨t, u, hins, hera, ?_, by omega⟩
  rw [hul, htl]
  rw [List.take_left' hlp]
  rw [show p + 1 = (s.toList.take p).length + 1 from by rw [hlp], List.drop_append]
  show s.toList.take p ++ s.toList.drop p = s.toList
  exact List.take_append_drop p s.toList

/-- Witness for claim C6: inserting 9 at position 0 of the vector with
live range [1, 2], then erasing at the returned position. -/
theorem claim_insert_erase_roundtrip_wit :
    (⟨[1, 2], 2, 2⟩ : SimpleVector Nat).WF
    ∧ 0 < (⟨[1, 2], 2, 2⟩ : SimpleVector Nat).size
    ∧ (∃ t u : SimpleVector Nat,
        (⟨[1, 2], 2, 2⟩ : SimpleVector Nat).InsertCopy 0 9 = some (t, 0)
        ∧ t.Erase 0 = some (u, 0)
        ∧ u.toList = (⟨[1, 2], 2, 2⟩ : SimpleVector Nat).toList
        ∧ u.size = (⟨[1, 2], 2, 2⟩ : SimpleVector Nat).size) :=
  ⟨by decide, by decide,
    claim_insert_erase_roundtrip (⟨[1, 2], 2, 2⟩ : SimpleVector Nat) 0 9
      (by decide) (by decide)⟩

theorem lexLt_both_false_iff {α : Type} [LinearOrder α] :
    ∀ l₁ l₂ : List α, (lexLt l₁ l₂ = false ∧ lexLt l₂ l₁ = false) ↔ l₁ = l₂
  | [], [] => by simp [lexLt]
  | [], b :: bs => by simp [lexLt]
  | a :: as, [] => by simp [lexLt]
  | a :: as, b :: bs => by
    simp only [lexLt]
    rcases lt_trichotomy a b with hab | hab | hab
    · simp [hab, ne_of_lt hab]
    · subst hab
      simp only [lt_irrefl, if_false, List.cons.injEq, true_and]
      exact lexLt_both_false_iff as bs
    · simp [hab, not_lt_of_gt hab, ne_of_gt hab]

theorem lexLt_eq_specLexLt {α : Type} [LinearOrder α] :
    ∀ l₁ l₂ : List α, lexLt l₁ l₂ = specLexLt l₁ l₂
  | [], [] => rfl
  | [], _ :: _ => rfl
  | _ :: _, [] => rfl
  | a :: as, b :: bs => by
    simp only [lexLt, specLexLt]
    rcases lt_trichotomy a b with hab | hab | hab
    · simp [hab]
    · subst hab
      simp only [lt_irrefl, if_false, if_pos rfl]
      exact lexLt_eq_specLexLt as bs
    · simp [hab, not_lt_of_gt hab, ne_of_gt hab]

/-- Claim C8: over a linearly ordered element type, the derived equality
operator holds exactly when the two live ranges have the same size and the
same elements in order; the derived less-than operator is the spec's
lexicographic comparison (element-wise less-than, shorter-is-less on a
strict prefix); and the spec's four concrete comparisons hold. -/
theorem claim_relational_lex {α : Type} [LinearOrder α] (a b : SimpleVector α)
    (ha : a.WF) (hb : b.WF) :
    (opEq a b = true ↔ (a.size = b.size ∧ a.toList = b.toList))
    ∧ opLt a b = specLexLt a.toList b.toList
    ∧ opLt (⟨[1, 2, 3], 3, 3⟩ : SimpleVector Nat) ⟨[1, 2, 4], 3, 3⟩ = true
    ∧ opLt (⟨[1, 2], 2, 2⟩ : SimpleVector Nat) ⟨[1, 2, 3], 3, 3⟩ = true
    ∧ opEq (⟨[1, 2, 3], 3, 3⟩ : SimpleVector Nat) ⟨[1, 2, 3], 3, 3⟩ = true
    ∧ opGt (⟨[2], 1, 1⟩ : SimpleVector Nat) ⟨[1, 9, 9], 3, 3⟩ = true := by
  refine ⟨?_, lexLt_eq_specLexLt _ _, by decide, by decide, by decide, by decide⟩
  constructor
  · intro hEq
    have hboth : lexLt a.toList b.toList = false ∧ lexLt b.toList a.toList = false := by
      simpa [opEq, opLt, Bool.and_eq_true, Bool.not_eq_true'] using hEq
    have hl : a.toList = b.toList := (lexLt_both_false_iff _ _).mp hboth
    refine ⟨?_, hl⟩
    rw [← toList_length_of_wf a ha, ← toList_length_of_wf b hb, hl]
  · rintro ⟨-, hl⟩
    have hboth := (lexLt_both_false_iff a.toList b.toList).mpr hl
    simp [opEq, opLt, Bool.and_eq_true, Bool.not_eq_true', hboth.1, hboth.2]

/-- Witness for claim C8 at two equal vectors with live range [1, 2, 3]. -/
theorem claim_relational_lex_wit :
    (⟨[1, 2, 3], 3, 3⟩ : SimpleVector Nat).WF
    ∧ ((opEq (⟨[1, 2, 3], 3, 3⟩ : SimpleVector Nat) (⟨[1, 2, 3], 3, 3⟩ : SimpleVector Nat)
          = true
          ↔ ((⟨[1, 2, 3], 3, 3⟩ : SimpleVector Nat).size
                = (⟨[1, 2, 3], 3, 3⟩ : SimpleVector Nat).size
              ∧ (⟨[1, 2, 3], 3, 3⟩ : SimpleVector Nat).toList
                = (⟨[1, 2, 3], 3, 3⟩ : SimpleVector Nat).toList))
        ∧ opLt (⟨[1, 2, 3], 3, 3⟩ : SimpleVector Nat) (⟨[1, 2, 3], 3, 3⟩ : SimpleVector Nat)
            = specLexLt (⟨[1, 2, 3], 3, 3⟩ : SimpleVector Nat).toList
                (⟨[1, 2, 3], 3, 3⟩ : SimpleVector Nat).toList
        ∧ opLt (⟨[1, 2, 3], 3, 3⟩ : SimpleVector Nat) ⟨[1, 2, 4], 3, 3⟩ = true
        ∧ opLt (⟨[1, 2], 2, 2⟩ : SimpleVector Nat) ⟨[1, 2, 3], 3, 3⟩ = true
        ∧ opEq (⟨[1, 2, 3], 3, 3⟩ : SimpleVector Nat) ⟨[1, 2, 3], 3, 3⟩ = true
        ∧ opGt (⟨[2], 1, 1⟩ : SimpleVector Nat) ⟨[1, 9, 9], 3, 3⟩ = true) :=
  ⟨by decide,
    claim_relational_lex (⟨[1, 2, 3], 3, 3⟩ : SimpleVector Nat)
      (⟨[1, 2, 3], 3, 3⟩ : SimpleVector Nat) (by decide) (by decide)⟩

/-- Claim C4: the copy overload of Insert asserts position < end(), so on
an empty vector (where begin() equals end()) inserting at the only valid
spec position, the end, fails the assertion instead of inserting; the move
overload, which has no assertion, appends the value as the spec intends. -/
theorem claim_insert_end_assert :
    SimpleVector.InsertCopy (⟨[], 0, 0⟩ : SimpleVector Nat) 0 7 = none
    ∧ SimpleVector.InsertMove (⟨[], 0, 0⟩ : SimpleVector Nat) 0 7 = (⟨[7], 1, 1⟩, 0) := by
  decide
